import Mathlib

set_option autoImplicit false

namespace SpikeInterface

/-!
## Decimation preprocessor

Shallow embedding of `src/spikeinterface/preprocessing/decimate.py`
(`DecimateRecording.__init__`, `DecimateRecordingSegment.get_num_samples`,
`DecimateRecordingSegment.get_traces`).
-/

/-- A parent recording segment as consumed by `DecimateRecordingSegment`:
a finite list of frames (each frame represented by its sample value, the
requested `channel_indices` restriction being already folded into the frame
value), together with the `time_vector` attribute that
`DecimateRecording.__init__` resets.  `get_traces start end` follows numpy
slice semantics `traces[start:end]` with `0 <= start`: the slice is clamped
at the end of the array. -/
structure ParentSegment where
  frames : List Int
  time_vector : Option (List Int)
deriving DecidableEq, Repr

def ParentSegment.get_num_samples (s : ParentSegment) : Nat :=
  s.frames.length

def ParentSegment.get_traces (s : ParentSegment) (start_frame end_frame : Nat) : List Int :=
  (s.frames.drop start_frame).take (end_frame - start_frame)

/-- numpy step slicing `l[::f]` for a step `f >= 1`: every `f`-th element
starting from index 0. -/
def everyNth (f : Nat) : List Int → List Int
  | [] => []
  | a :: rest => a :: everyNth f (rest.drop (f - 1))
termination_by l => l.length
decreasing_by simp only [List.length_drop, List.length_cons]; omega

/-- CPython's `len(range(start, stop, step))` for a positive `step`:
`0` when `start >= stop`, else `1 + (stop - start - 1) // step`. -/
def pyRangeLen (start stop step : Nat) : Nat :=
  if start < stop then (stop - start - 1) / step + 1 else 0

/-- `DecimateRecordingSegment`: a view of a parent segment through
`decimation_factor` and `decimation_offset` (the constructor-validated
domain: a strictly positive factor and a frame-index offset). -/
structure DecimateRecordingSegment where
  parent_segment : ParentSegment
  decimation_factor : Nat
  decimation_offset : Nat
deriving DecidableEq, Repr

/-- `len(range(self._decimation_offset, self._parent_segment.get_num_samples(),
self._decimation_factor))`. -/
def DecimateRecordingSegment.get_num_samples (seg : DecimateRecordingSegment) : Nat :=
  pyRangeLen seg.decimation_offset seg.parent_segment.get_num_samples seg.decimation_factor

/-- `DecimateRecordingSegment.get_traces` for concrete (non-`None`) frame
bounds: query the parent over
`[offset + start*factor, offset + start*factor + (end-start)*factor)` and
step-slice the result by the factor.  The trailing `.astype(self._dtype)` is
the identity on sample values because `DecimateRecording` inherits the parent
recording's dtype (no `dtype` argument is passed to `BasePreprocessor`). -/
def DecimateRecordingSegment.get_traces (seg : DecimateRecordingSegment)
    (start_frame end_frame : Nat) : List Int :=
  let parent_start_frame :=
    seg.decimation_offset + start_frame * seg.decimation_factor
  let parent_end_frame :=
    parent_start_frame + (end_frame - start_frame) * seg.decimation_factor
  everyNth seg.decimation_factor
    (seg.parent_segment.get_traces parent_start_frame parent_end_frame)

theorem everyNth_nil (f : Nat) : everyNth f [] = [] := by
  rw [everyNth]

theorem everyNth_cons (f : Nat) (a : Int) (rest : List Int) :
    everyNth f (a :: rest) = a :: everyNth f (rest.drop (f - 1)) := by
  rw [everyNth]

theorem everyNth_length_aux (f : Nat) (hf : 1 ≤ f) :
    ∀ (n : Nat) (l : List Int), l.length ≤ n →
      (everyNth f l).length = (l.length + f - 1) / f := by
  intro n
  induction n with
  | zero =>
    intro l hl
    have : l = [] := List.eq_nil_of_length_eq_zero (Nat.le_zero.mp hl)
    subst this
    simp [everyNth_nil, Nat.div_eq_of_lt (by omega : f - 1 < f)]
  | succ n ih =>
    intro l hl
    cases l with
    | nil => simp [everyNth_nil, Nat.div_eq_of_lt (by omega : f - 1 < f)]
    | cons a rest =>
      have hrest : (rest.drop (f - 1)).length ≤ n := by
        simp only [List.length_drop]
        simp only [List.length_cons] at hl
        omega
      simp only [everyNth_cons, List.length_cons]
      rw [ih _ hrest, List.length_drop]
      have hnum : rest.length + 1 + f - 1 = rest.length + f := by omega
      rw [hnum, Nat.add_div_right _ (by omega : 0 < f)]
      by_cases hc : f - 1 ≤ rest.length
      · have h1 : rest.length - (f - 1) + f - 1 = rest.length := by omega
        rw [h1]
      · have h1 : rest.length - (f - 1) + f - 1 = f - 1 := by omega
        rw [h1, Nat.div_eq_of_lt (by omega : f - 1 < f),
          Nat.div_eq_of_lt (by omega : rest.length < f)]

theorem everyNth_length (f : Nat) (hf : 1 ≤ f) (l : List Int) :
    (everyNth f l).length = (l.length + f - 1) / f :=
  everyNth_length_aux f hf l.length l (le_refl _)

theorem everyNth_get?_aux (f : Nat) (hf : 1 ≤ f) :
    ∀ (n : Nat) (l : List Int), l.length ≤ n →
      ∀ i, (everyNth f l).get? i = l.get? (i * f) := by
  intro n
  induction n with
  | zero =>
    intro l hl i
    have : l = [] := List.eq_nil_of_length_eq_zero (Nat.le_zero.mp hl)
    subst this
    simp [everyNth_nil]
  | succ n ih =>
    intro l hl i
    cases l with
    | nil => simp [everyNth_nil]
    | cons a rest =>
      cases i with
      | zero => simp [everyNth_cons]
      | succ i =>
        have hrest : (rest.drop (f - 1)).length ≤ n := by
          simp only [List.length_drop]
          simp only [List.length_cons] at hl
          omega
        have hsm : (i + 1) * f = i * f + f := by ring
        have hidx : (i + 1) * f = f - 1 + i * f + 1 := by omega
        rw [everyNth_cons, List.get?_cons_succ, ih _ hrest i, List.get?_drop, hidx,
          List.get?_cons_succ]

theorem everyNth_get? (f : Nat) (hf : 1 ≤ f) (l : List Int) (i : Nat) :
    (everyNth f l).get? i = l.get? (i * f) :=
  everyNth_get?_aux f hf l.length l (le_refl _) i

theorem pyRangeLen_lt_iff (d N f : Nat) (hf : 1 ≤ f) (j : Nat) :
    j < pyRangeLen d N f ↔ d + j * f < N := by
  unfold pyRangeLen
  by_cases hd : d < N
  · simp only [if_pos hd]
    rw [Nat.lt_succ_iff, Nat.le_div_iff_mul_le (by omega : 0 < f)]
    omega
  · simp only [if_neg hd]
    omega

theorem pyRangeLen_eq_ceil (d N f : Nat) (hf : 1 ≤ f) (hd : d < N) :
    pyRangeLen d N f = (N - d + f - 1) / f := by
  unfold pyRangeLen
  simp only [if_pos hd]
  have h1 : N - d + f - 1 = (N - d - 1) + f := by omega
  rw [h1, Nat.add_div_right _ (by omega : 0 < f)]

theorem pyRangeLen_eq_zero (d N f : Nat) (hd : N ≤ d) :
    pyRangeLen d N f = 0 := by
  unfold pyRangeLen
  simp only [if_neg (by omega : ¬ d < N)]

/-- C7: for a `DecimateRecordingSegment` with factor `f ≥ 1` and offset `d`,
and frames `start ≤ end ≤ get_num_samples()`, `get_traces start end` has
exactly `end - start` frames, and its `i`-th frame is the parent segment's
frame at index `d + (start + i) * f`. -/
theorem C7_decimate_get_traces (seg : DecimateRecordingSegment) (s e : Nat)
    (hf : 1 ≤ seg.decimation_factor) (hse : s ≤ e)
    (he : e ≤ seg.get_num_samples) :
    (seg.get_traces s e).length = e - s ∧
    ∀ i, i < e - s →
      (seg.get_traces s e).get? i =
        seg.parent_segment.frames.get?
          (seg.decimation_offset + (s + i) * seg.decimation_factor) := by
  obtain ⟨par, f, d⟩ := seg
  simp only [DecimateRecordingSegment.get_traces, DecimateRecordingSegment.get_num_samples,
    ParentSegment.get_traces, ParentSegment.get_num_samples] at *
  set N := par.frames.length with hN
  have hcancel : d + s * f + (e - s) * f - (d + s * f) = (e - s) * f := by omega
  rw [hcancel]
  constructor
  · -- length
    rw [everyNth_length f hf, List.length_take, List.length_drop]
    rcases Nat.eq_or_lt_of_le hse with heq | hlt
    · subst heq
      simp only [Nat.sub_self, Nat.zero_mul, Nat.min_comm, Nat.min_zero]
      exact Nat.div_eq_of_lt (by omega)
    · set m := e - s with hm
      have hm1 : 1 ≤ m := by omega
      have hkey : d + (e - 1) * f < N :=
        (pyRangeLen_lt_iff d N f hf (e - 1)).mp (by omega)
      have hsplit : (e - 1) * f = s * f + (m - 1) * f := by
        rw [← Nat.add_mul]
        have : e - 1 = s + (m - 1) := by omega
        rw [this]
      have hfm : f ≤ m * f := Nat.le_mul_of_pos_left f (by omega : 0 < m)
      have hAB : m * f = (m - 1) * f + f := by
        have h := Nat.sub_one_mul m f
        omega
      by_cases hNA : d + s * f + m * f ≤ N
      · have hmin : min (m * f) (N - (d + s * f)) = m * f := by omega
        rw [hmin]
        have hnum : m * f + f - 1 = f * m + (f - 1) := by
          rw [Nat.mul_comm]; omega
        rw [hnum, Nat.mul_add_div (by omega : 0 < f),
          Nat.div_eq_of_lt (by omega : f - 1 < f)]
        omega
      · have hmin : min (m * f) (N - (d + s * f)) = N - (d + s * f) := by omega
        rw [hmin]
        apply Nat.div_eq_of_lt_le
        · omega
        · have hsm : (m + 1) * f = m * f + f := by ring
          omega
  · -- contents
    intro i hi
    rw [everyNth_get? f hf]
    have hif : i * f < (e - s) * f :=
      (Nat.mul_lt_mul_right (by omega : 0 < f)).mpr hi
    rw [List.get?_take hif, List.get?_drop]
    have harg : d + s * f + i * f = d + (s + i) * f := by
      have := Nat.add_mul s i f
      omega
    rw [harg]

/-- C8: `get_num_samples()` of a `DecimateRecordingSegment` equals the length
of the step slice `parent_traces[d::f]`, which is `⌈(N - d) / f⌉` when
`d < N` and `0` otherwise. -/
theorem C8_decimate_get_num_samples (seg : DecimateRecordingSegment)
    (hf : 1 ≤ seg.decimation_factor) :
    seg.get_num_samples =
      (everyNth seg.decimation_factor
        (seg.parent_segment.frames.drop seg.decimation_offset)).length ∧
    (seg.decimation_offset < seg.parent_segment.get_num_samples →
      seg.get_num_samples =
        (seg.parent_segment.get_num_samples - seg.decimation_offset +
          seg.decimation_factor - 1) / seg.decimation_factor) ∧
    (seg.parent_segment.get_num_samples ≤ seg.decimation_offset →
      seg.get_num_samples = 0) := by
  obtain ⟨par, f, d⟩ := seg
  simp only [DecimateRecordingSegment.get_num_samples, ParentSegment.get_num_samples] at *
  set N := par.frames.length with hN
  refine ⟨?_, ?_, ?_⟩
  · rw [everyNth_length f hf, List.length_drop]
    by_cases hd : d < N
    · exact pyRangeLen_eq_ceil d N f hf hd
    · rw [pyRangeLen_eq_zero d N f (by omega)]
      have : N - d = 0 := by omega
      rw [this]
      exact (Nat.div_eq_of_lt (by omega)).symm
  · intro hd
    exact pyRangeLen_eq_ceil d N f hf hd
  · intro hd
    exact pyRangeLen_eq_zero d N f hd

/-- A concrete decimated segment: 10 parent frames, factor 3, offset 1. -/
def exampleDecimateSeg : DecimateRecordingSegment :=
  ⟨⟨[10, 11, 12, 13, 14, 15, 16, 17, 18, 19], none⟩, 3, 1⟩

theorem C7_decimate_get_traces_witness :
    (1 ≤ exampleDecimateSeg.decimation_factor ∧ 1 ≤ 3 ∧
      3 ≤ exampleDecimateSeg.get_num_samples) ∧
    ((exampleDecimateSeg.get_traces 1 3).length = 3 - 1 ∧
      ∀ i, i < 3 - 1 →
        (exampleDecimateSeg.get_traces 1 3).get? i =
          exampleDecimateSeg.parent_segment.frames.get?
            (exampleDecimateSeg.decimation_offset +
              (1 + i) * exampleDecimateSeg.decimation_factor)) :=
  ⟨⟨by decide, by decide, by decide⟩,
    C7_decimate_get_traces exampleDecimateSeg 1 3 (by decide) (by decide) (by decide)⟩

theorem C8_decimate_get_num_samples_witness :
    1 ≤ exampleDecimateSeg.decimation_factor ∧
    (exampleDecimateSeg.get_num_samples =
      (everyNth exampleDecimateSeg.decimation_factor
        (exampleDecimateSeg.parent_segment.frames.drop
          exampleDecimateSeg.decimation_offset)).length ∧
    (exampleDecimateSeg.decimation_offset <
        exampleDecimateSeg.parent_segment.get_num_samples →
      exampleDecimateSeg.get_num_samples =
        (exampleDecimateSeg.parent_segment.get_num_samples -
          exampleDecimateSeg.decimation_offset +
          exampleDecimateSeg.decimation_factor - 1) /
            exampleDecimateSeg.decimation_factor) ∧
    (exampleDecimateSeg.parent_segment.get_num_samples ≤
        exampleDecimateSeg.decimation_offset →
      exampleDecimateSeg.get_num_samples = 0)) :=
  ⟨by decide, C8_decimate_get_num_samples exampleDecimateSeg (by decide)⟩

/-- A Python value passed for `decimation_factor` or `decimation_offset`:
either an `int` carrying its value, or some non-`int` value (one for which
`isinstance(x, int)` is false). -/
inductive PyArg where
  | int : Int → PyArg
  | other : PyArg
deriving DecidableEq, Repr

/-- The argument validation performed by `DecimateRecording.__init__`:
first `if not isinstance(decimation_factor, int) or decimation_factor <= 0:
raise ValueError(...)`, then `if not isinstance(decimation_offset, int) or
decimation_factor < 0: raise ValueError(...)` — the second condition tests
`decimation_factor`, exactly as the source line reads. -/
def decimateRecordingInitCheck (decimation_factor decimation_offset : PyArg) :
    Except String Unit :=
  match decimation_factor with
  | .other => .error "Expecting strictly positive integer for `decimation_factor` arg"
  | .int fv =>
    if fv ≤ 0 then
      .error "Expecting strictly positive integer for `decimation_factor` arg"
    else
      match decimation_offset with
      | .other => .error "Expecting positive integer for `decimation_factor` arg"
      | .int _ =>
        if fv < 0 then
          .error "Expecting positive integer for `decimation_factor` arg"
        else
          .ok ()

/-- C9: `DecimateRecording.__init__` validation succeeds iff
`decimation_factor` is a strictly positive `int` and `decimation_offset` is
an `int` — the sign of `decimation_offset` is never checked (the second
`if` re-tests `decimation_factor < 0`, which is unreachable after the first
check), so every negative integer offset is accepted. -/
theorem C9_decimate_init_validation (factor offset : PyArg) :
    decimateRecordingInitCheck factor offset = .ok () ↔
      ((∃ n : Int, factor = .int n ∧ 0 < n) ∧ ∃ m : Int, offset = .int m) := by
  cases factor with
  | other => simp [decimateRecordingInitCheck]
  | int fv =>
    cases offset with
    | other =>
      simp only [decimateRecordingInitCheck]
      constructor
      · intro h
        split at h <;> simp at h
      · rintro ⟨-, m, hm⟩
        cases hm
    | int ov =>
      simp only [decimateRecordingInitCheck]
      by_cases h : fv ≤ 0
      · rw [if_pos h]
        constructor
        · intro hcontra
          cases hcontra
        · rintro ⟨⟨n, hn, hnpos⟩, -⟩
          cases hn
          omega
      · rw [if_neg h, if_neg (by omega : ¬ fv < 0)]
        constructor
        · intro
          exact ⟨⟨fv, rfl, by omega⟩, ov, rfl⟩
        · intro
          rfl

/-- A parent recording as mutated by `DecimateRecording.__init__`: just its
list of segments (`recording._recording_segments`). -/
structure BaseRecording where
  recording_segments : List ParentSegment
deriving DecidableEq, Repr

/-- The segment loop of `DecimateRecording.__init__`: for each parent
segment, set `parent_segment.time_vector = None`, then wrap that (now
mutated) parent segment in a `DecimateRecordingSegment` added to the child.
Returns the parent recording as left after construction together with the
child's segments. -/
def decimateRecordingConstruct (recording : BaseRecording)
    (decimation_factor decimation_offset : Nat) :
    BaseRecording × List DecimateRecordingSegment :=
  (⟨recording.recording_segments.map (fun s => { s with time_vector := none })⟩,
    recording.recording_segments.map (fun s =>
      { parent_segment := { s with time_vector := none }
        decimation_factor := decimation_factor
        decimation_offset := decimation_offset }))

/-- C10: constructing a `DecimateRecording` mutates its parent recording:
every parent segment's `time_vector` is set to `None`, and there is a parent
recording that construction does not leave unchanged. -/
theorem C10_decimate_init_mutates_parent :
    (∀ (rec : BaseRecording) (f d : Nat),
      ((decimateRecordingConstruct rec f d).1.recording_segments.all
        (fun s => s.time_vector.isNone)) = true) ∧
    (∃ (rec : BaseRecording) (f d : Nat),
      (decimateRecordingConstruct rec f d).1 ≠ rec) := by
  constructor
  · intro rec f d
    simp [decimateRecordingConstruct, List.all_eq_true]
  · exact ⟨⟨[⟨[], some []⟩]⟩, 1, 0, by decide⟩

/-!
## Waveform extraction engine

`spikeinterface/core/waveform_tools.py` (`extract_waveforms_to_buffers`,
`extract_waveforms_to_single_buffer`, `split_waveforms_by_units` and the job
machinery) is exercised by `core/tests/test_waveform_tools.py` but its own
code is not among the sources, so the definitions below are modelled from
the specification.
-/

/-- Modelled from the spec: a spike record
`{sample_index, unit_index, segment_index}` (§3); the missing
`waveform_tools` spike-vector entries. -/
structure Spike where
  segment_index : Nat
  sample_index : Nat
  unit_index : Nat
deriving DecidableEq, Repr

/-- Modelled from the spec: the narrow read capability the core consumes
(§6): an ordered channel set of size `num_channels`, per-segment sample
counts, and a sample value per (segment, sample, channel). -/
structure Recording where
  num_channels : Nat
  seg_num_samples : Nat → Nat
  trace : Nat → Nat → Nat → Int

/-- Modelled from the spec: the spike sequence is sorted ascending by
(segment_index, sample_index) (§3). -/
def spikesSorted (spikes : List Spike) : Prop :=
  List.Pairwise (fun a b =>
    a.segment_index < b.segment_index ∨
      (a.segment_index = b.segment_index ∧ a.sample_index ≤ b.sample_index)) spikes

instance spikesSorted_decidable (spikes : List Spike) : Decidable (spikesSorted spikes) :=
  List.instDecidablePairwise spikes

/-- Modelled from the spec: the channels a unit's waveforms carry — all
channels when the sparsity mask is absent, the unit's active mask row
otherwise (§3 SparsityMask). -/
def activeChannels (num_channels : Nat) (sparsity_mask : Option (Nat → Nat → Bool))
    (unit : Nat) : List Nat :=
  match sparsity_mask with
  | none => List.range num_channels
  | some mask => (List.range num_channels).filter (fun c => mask unit c)

/-- Modelled from the spec (§4.4 Waveform Extractor): the waveform of one
spike is the window `[sample_index - nbefore, sample_index + nafter)` of its
segment; a row whose sample position lies inside segment bounds is read
verbatim from the recording on the unit's active channels, and a row outside
segment bounds is zero-filled. -/
def waveformOf (rec : Recording) (nbefore nafter : Nat)
    (sparsity_mask : Option (Nat → Nat → Bool)) (s : Spike) : List (List Int) :=
  (List.range (nbefore + nafter)).map (fun (t : Nat) =>
    if 0 ≤ (s.sample_index : Int) - (nbefore : Int) + (t : Int) ∧
        (s.sample_index : Int) - (nbefore : Int) + (t : Int) <
          (rec.seg_num_samples s.segment_index : Int) then
      (activeChannels rec.num_channels sparsity_mask s.unit_index).map
        (fun c => rec.trace s.segment_index
          ((s.sample_index : Int) - (nbefore : Int) + (t : Int)).toNat c)
    else
      (activeChannels rec.num_channels sparsity_mask s.unit_index).map (fun _ => 0))

/-- Modelled from the spec (§4.3 Spike-to-Slice Indexer): one sequential
pass pairing each spike with its running count among prior spikes sharing
its `unit_index`, threading the per-unit counter. -/
def withinUnitAux : (Nat → Nat) → List Spike → List (Spike × Nat)
  | _, [] => []
  | cnt, s :: rest =>
    (s, cnt s.unit_index) ::
      withinUnitAux (fun u => if u = s.unit_index then cnt u + 1 else cnt u) rest

/-- Modelled from the spec (§4.3): each spike paired with its
`within_unit_position`, all counters starting at zero. -/
def spikesWithPosition (spikes : List Spike) : List (Spike × Nat) :=
  withinUnitAux (fun _ => 0) spikes

/-- Modelled from the spec (§3): `spike_count[unit]` = number of spikes
referencing the unit. -/
def unitSpikeCount (spikes : List Spike) (u : Nat) : Nat :=
  (spikes.filter (fun s => s.unit_index == u)).length

/-- Modelled from the spec (§6): the storage kinds for buffer backing. -/
inductive StorageKind where
  | memmap
  | shared_memory
deriving DecidableEq, Repr

/-- Modelled from the spec (§4.5, §5): the buffer writes an execution of the
job runner performs, in the order they land — each task is a destination row
paired with the value written there. -/
def writeAll {α : Type} (buf : List α) (tasks : List (Nat × α)) : List α :=
  tasks.foldl (fun b t => b.set t.1 t.2) buf

/-- Modelled from the spec (§4.2 Buffer Allocator): a zero sample row over a
unit's active channels. -/
def zeroRow (rec : Recording) (sparsity_mask : Option (Nat → Nat → Bool))
    (u : Nat) : List Int :=
  (activeChannels rec.num_channels sparsity_mask u).map (fun _ => 0)

/-- Modelled from the spec (§4.2): the single contiguous buffer, one row per
spike, zero-initialized by either storage kind. -/
def allocateSingleBuffer (kind : StorageKind) (total num_rows num_chans : Nat) :
    List (List (List Int)) :=
  match kind with
  | .memmap => List.replicate total (List.replicate num_rows (List.replicate num_chans 0))
  | .shared_memory => List.replicate total (List.replicate num_rows (List.replicate num_chans 0))

/-- Modelled from the spec (§4.3): in single-buffer mode a spike's
destination row is its position in the global spike sequence; its write
value is its extracted waveform. -/
def singleBufferTasks (rec : Recording) (nbefore nafter : Nat)
    (sparsity_mask : Option (Nat → Nat → Bool)) (spikes : List Spike) :
    List (Nat × List (List Int)) :=
  spikes.enum.map (fun p => (p.1, waveformOf rec nbefore nafter sparsity_mask p.2))

/-- Modelled from the spec (`extract_waveforms_to_single_buffer`): allocate
the zero-initialized single buffer and apply the writes of one runner
execution.  With `n_jobs = 1` the execution is `singleBufferTasks` in order;
a parallel execution over chunked workers performs the same writes in some
interleaved order — a permutation of that task list. -/
def extract_waveforms_to_single_buffer (kind : StorageKind) (rec : Recording)
    (nbefore nafter : Nat) (sparsity_mask : Option (Nat → Nat → Bool))
    (spikes : List Spike) (executed : List (Nat × List (List Int))) :
    List (List (List Int)) :=
  writeAll (allocateSingleBuffer kind spikes.length (nbefore + nafter) rec.num_channels)
    executed

/-- Modelled from the spec (§4.2): the per-unit buffers, unit `u` holding
`spike_count[u]` rows, zero-initialized. -/
def allocateUnitBuffers (rec : Recording) (nbefore nafter : Nat)
    (sparsity_mask : Option (Nat → Nat → Bool)) (spikes : List Spike) :
    Nat → List (List (List Int)) :=
  fun u =>
    List.replicate (unitSpikeCount spikes u)
      (List.replicate (nbefore + nafter) (zeroRow rec sparsity_mask u))

/-- Modelled from the spec (§4.3): in per-unit-buffer mode a spike's
destination is (its unit's buffer, its `within_unit_position`). -/
def unitBufferTasks (rec : Recording) (nbefore nafter : Nat)
    (sparsity_mask : Option (Nat → Nat → Bool)) (spikes : List Spike) :
    List (Nat × Nat × List (List Int)) :=
  (spikesWithPosition spikes).map (fun p =>
    (p.1.unit_index, p.2, waveformOf rec nbefore nafter sparsity_mask p.1))

/-- Modelled from the spec (§4.5): one per-unit-buffer write: set row
`t.2.1` of unit `t.1`'s buffer to the waveform `t.2.2`. -/
def applyUnitWrite (bufs : Nat → List (List (List Int)))
    (t : Nat × Nat × List (List Int)) : Nat → List (List (List Int)) :=
  fun u => if u = t.1 then (bufs u).set t.2.1 t.2.2 else bufs u

/-- Modelled from the spec (`extract_waveforms_to_buffers`): allocate the
zero-initialized per-unit buffers and apply the writes of one runner
execution (a permutation of `unitBufferTasks` — the canonical order for
`n_jobs = 1`). -/
def extract_waveforms_to_buffers (kind : StorageKind) (rec : Recording)
    (nbefore nafter : Nat) (sparsity_mask : Option (Nat → Nat → Bool))
    (spikes : List Spike) (executed : List (Nat × Nat × List (List Int))) :
    Nat → List (List (List Int)) :=
  match kind with
  | .memmap => executed.foldl applyUnitWrite (allocateUnitBuffers rec nbefore nafter sparsity_mask spikes)
  | .shared_memory => executed.foldl applyUnitWrite (allocateUnitBuffers rec nbefore nafter sparsity_mask spikes)

/-- Modelled from the spec (§4.6 Buffer Splitter): unit `u` receives the
single buffer's rows whose spike references `u`, in their relative order in
the spike sequence. -/
def split_waveforms_by_units (spikes : List Spike)
    (all_waveforms : List (List (List Int))) (u : Nat) : List (List (List Int)) :=
  ((spikes.zip all_waveforms).filter (fun p => p.1.unit_index == u)).map (fun p => p.2)

theorem writeAll_length {α : Type} (tasks : List (Nat × α)) :
    ∀ (buf : List α), (writeAll buf tasks).length = buf.length := by
  induction tasks with
  | nil => intro buf; rfl
  | cons t rest ih =>
    intro buf
    have hstep : writeAll buf (t :: rest) = writeAll (buf.set t.1 t.2) rest := rfl
    rw [hstep, ih, List.length_set]

theorem writeAll_get?_not_mem {α : Type} (tasks : List (Nat × α)) :
    ∀ (buf : List α) (j : Nat), j ∉ tasks.map Prod.fst →
      (writeAll buf tasks).get? j = buf.get? j := by
  induction tasks with
  | nil => intro buf j _; rfl
  | cons t rest ih =>
    intro buf j hj
    simp only [List.map_cons, List.mem_cons] at hj
    push_neg at hj
    have hstep : writeAll buf (t :: rest) = writeAll (buf.set t.1 t.2) rest := rfl
    rw [hstep, ih _ j hj.2, List.get?_set_ne _ _ (fun h => hj.1 h.symm)]

theorem writeAll_get?_mem {α : Type} (tasks : List (Nat × α)) :
    ∀ (buf : List α) (j : Nat) (w : α), (j, w) ∈ tasks →
      (tasks.map Prod.fst).Nodup → j < buf.length →
      (writeAll buf tasks).get? j = some w := by
  induction tasks with
  | nil => intro buf j w h; cases h
  | cons t rest ih =>
    intro buf j w hmem hnd hj
    simp only [List.map_cons, List.nodup_cons] at hnd
    have hstep : writeAll buf (t :: rest) = writeAll (buf.set t.1 t.2) rest := rfl
    rcases List.mem_cons.mp hmem with heq | hrest
    · have ht : t = (j, w) := heq.symm
      subst ht
      rw [hstep, writeAll_get?_not_mem rest _ j hnd.1]
      exact List.get?_set_eq_of_lt w hj
    · rw [hstep]
      exact ih _ j w hrest hnd.2 (by rw [List.length_set]; exact hj)

theorem writeAll_perm {α : Type} (tasks tasks' : List (Nat × α))
    (hperm : tasks.Perm tasks') (hnd : (tasks.map Prod.fst).Nodup)
    (buf : List α) : writeAll buf tasks = writeAll buf tasks' := by
  apply List.ext
  intro j
  by_cases hj : j ∈ tasks.map Prod.fst
  · obtain ⟨t, htmem, hfst⟩ := List.mem_map.mp hj
    obtain ⟨tj, w⟩ := t
    simp only at hfst
    subst hfst
    have hmem' : (tj, w) ∈ tasks' := hperm.mem_iff.mp htmem
    have hnd' : (tasks'.map Prod.fst).Nodup := (hperm.map Prod.fst).nodup_iff.mp hnd
    by_cases hlen : tj < buf.length
    · rw [writeAll_get?_mem tasks buf tj w htmem hnd hlen,
        writeAll_get?_mem tasks' buf tj w hmem' hnd' hlen]
    · have h1 : (writeAll buf tasks).get? tj = none :=
        List.get?_eq_none.mpr (by rw [writeAll_length]; omega)
      have h2 : (writeAll buf tasks').get? tj = none :=
        List.get?_eq_none.mpr (by rw [writeAll_length]; omega)
      rw [h1, h2]
  · rw [writeAll_get?_not_mem tasks buf j hj,
      writeAll_get?_not_mem tasks' buf j
        (fun hmem => hj (((hperm.map Prod.fst).mem_iff).mpr hmem))]

theorem zip_map_right {α β γ : Type} (f : β → γ) :
    ∀ (as : List α) (bs : List β),
      (as.zip bs).map (fun p => (p.1, f p.2)) = as.zip (bs.map f) := by
  intro as
  induction as with
  | nil => intro bs; rfl
  | cons a as ih =>
    intro bs
    cases bs with
    | nil => rfl
    | cons b bs => simp [List.zip_cons_cons, ih]

theorem zip_map_flip {α β γ : Type} (f : α → γ) :
    ∀ (as : List α) (bs : List β),
      (as.zip bs).map (fun p => (p.2, f p.1)) = bs.zip (as.map f) := by
  intro as
  induction as with
  | nil => intro bs; cases bs <;> rfl
  | cons a as ih =>
    intro bs
    cases bs with
    | nil => rfl
    | cons b bs => simp [List.zip_cons_cons, ih]

theorem writeAll_zip_range {α : Type} (z : α) :
    ∀ (ws : List α) (n : Nat), ws.length = n →
      writeAll (List.replicate n z) ((List.range n).zip ws) = ws := by
  intro ws n hlen
  have hfst : ((List.range n).zip ws).map Prod.fst = List.range n :=
    List.map_fst_zip _ _ (by simp [hlen])
  apply List.ext
  intro j
  by_cases hj : j < n
  · obtain ⟨w, hw⟩ : ∃ w, ws.get? j = some w :=
      ⟨ws.get ⟨j, by omega⟩, List.get?_eq_get (by omega)⟩
    have hz : ((List.range n).zip ws).get? j = some (j, w) :=
      (List.get?_zip_eq_some _ _ _ _).mpr ⟨List.get?_range hj, hw⟩
    have hmem := List.get?_mem hz
    rw [writeAll_get?_mem _ _ j w hmem (by rw [hfst]; exact List.nodup_range n)
      (by rw [List.length_replicate]; exact hj), hw]
  · have h1 : (writeAll (List.replicate n z) ((List.range n).zip ws)).get? j = none :=
      List.get?_eq_none.mpr (by rw [writeAll_length, List.length_replicate]; omega)
    have h2 : ws.get? j = none := List.get?_eq_none.mpr (by omega)
    rw [h1, h2]

theorem singleBufferTasks_eq_zip (rec : Recording) (nbefore nafter : Nat)
    (sparsity_mask : Option (Nat → Nat → Bool)) (spikes : List Spike) :
    singleBufferTasks rec nbefore nafter sparsity_mask spikes =
      (List.range spikes.length).zip
        (spikes.map (waveformOf rec nbefore nafter sparsity_mask)) := by
  unfold singleBufferTasks
  rw [List.enum_eq_zip_range, zip_map_right]

theorem unitSpikeCount_cons (s : Spike) (rest : List Spike) (u : Nat) :
    unitSpikeCount (s :: rest) u =
      if s.unit_index == u then unitSpikeCount rest u + 1 else unitSpikeCount rest u := by
  unfold unitSpikeCount
  rw [List.filter_cons]
  by_cases h : s.unit_index = u
  · simp [h]
  · simp [h]

theorem withinUnitAux_filter (u : Nat) :
    ∀ (spikes : List Spike) (cnt : Nat → Nat),
      (withinUnitAux cnt spikes).filter (fun p => p.1.unit_index == u) =
        (spikes.filter (fun s => s.unit_index == u)).zip
          (List.range' (cnt u) (unitSpikeCount spikes u)) := by
  intro spikes
  induction spikes with
  | nil => intro cnt; rfl
  | cons s rest ih =>
    intro cnt
    rw [withinUnitAux, List.filter_cons, List.filter_cons, unitSpikeCount_cons]
    by_cases hu : s.unit_index = u
    · have hb : (s.unit_index == u) = true := by simp [hu]
      simp only [hb, if_true]
      rw [List.range'_succ, List.zip_cons_cons, ih]
      have hcnt : cnt s.unit_index = cnt u := by rw [hu]
      rw [hcnt, if_pos hu.symm]
    · have hb : (s.unit_index == u) = false := by simp [hu]
      simp only [hb, Bool.false_eq_true, if_false]
      rw [ih]
      have hns : ¬ u = s.unit_index := fun h => hu h.symm
      rw [if_neg hns]

theorem unitBufferTasks_filter (rec : Recording) (nbefore nafter : Nat)
    (sparsity_mask : Option (Nat → Nat → Bool)) (spikes : List Spike) (u : Nat) :
    ((unitBufferTasks rec nbefore nafter sparsity_mask spikes).filter
        (fun t => t.1 == u)).map (fun t => t.2) =
      (List.range (unitSpikeCount spikes u)).zip
        ((spikes.filter (fun s => s.unit_index == u)).map
          (waveformOf rec nbefore nafter sparsity_mask)) := by
  unfold unitBufferTasks
  rw [List.filter_map, List.map_map]
  simp only [Function.comp_def]
  rw [spikesWithPosition, withinUnitAux_filter u spikes (fun _ => 0), zip_map_flip]
  simp [List.range_eq_range']

theorem foldl_applyUnitWrite (executed : List (Nat × Nat × List (List Int))) :
    ∀ (bufs : Nat → List (List (List Int))) (u : Nat),
      (executed.foldl applyUnitWrite bufs) u =
        writeAll (bufs u) ((executed.filter (fun t => t.1 == u)).map (fun t => t.2)) := by
  induction executed with
  | nil => intro bufs u; rfl
  | cons t rest ih =>
    intro bufs u
    rw [List.foldl_cons, List.filter_cons, ih]
    by_cases ht : t.1 = u
    · have hb : (t.1 == u) = true := by simp [ht]
      simp only [hb, if_true, List.map_cons]
      have happ : applyUnitWrite bufs t u = (bufs u).set t.2.1 t.2.2 := by
        unfold applyUnitWrite
        rw [if_pos ht.symm]
      rw [happ]
      rfl
    · have hb : (t.1 == u) = false := by simp [ht]
      simp only [hb, Bool.false_eq_true, if_false]
      have happ : applyUnitWrite bufs t u = bufs u := by
        unfold applyUnitWrite
        rw [if_neg (fun h => ht h.symm)]
      rw [happ]

theorem split_of_map (rec : Recording) (nbefore nafter : Nat)
    (sparsity_mask : Option (Nat → Nat → Bool)) (u : Nat) :
    ∀ (spikes : List Spike),
      split_waveforms_by_units spikes
          (spikes.map (waveformOf rec nbefore nafter sparsity_mask)) u =
        (spikes.filter (fun s => s.unit_index == u)).map
          (waveformOf rec nbefore nafter sparsity_mask) := by
  intro spikes
  induction spikes with
  | nil => rfl
  | cons s rest ih =>
    unfold split_waveforms_by_units at *
    rw [List.map_cons, List.zip_cons_cons, List.filter_cons, List.filter_cons]
    by_cases hu : s.unit_index = u
    · have hb : (s.unit_index == u) = true := by simp [hu]
      simp only [hb, if_true, List.map_cons]
      rw [ih]
    · have hb : (s.unit_index == u) = false := by simp [hu]
      simp only [hb, Bool.false_eq_true, if_false]
      rw [ih]

/-- Any runner execution (a permutation of the canonical task order) fills
the single buffer with exactly the spike-order waveform list. -/
theorem extract_single_canonical (kind : StorageKind) (rec : Recording)
    (nbefore nafter : Nat) (sparsity_mask : Option (Nat → Nat → Bool))
    (spikes : List Spike) (executed : List (Nat × List (List Int)))
    (hperm : executed.Perm (singleBufferTasks rec nbefore nafter sparsity_mask spikes)) :
    extract_waveforms_to_single_buffer kind rec nbefore nafter sparsity_mask spikes executed =
      spikes.map (waveformOf rec nbefore nafter sparsity_mask) := by
  have hfst : ((singleBufferTasks rec nbefore nafter sparsity_mask spikes).map
      Prod.fst).Nodup := by
    rw [singleBufferTasks_eq_zip, List.map_fst_zip _ _ (by simp)]
    exact List.nodup_range _
  have hnd : (executed.map Prod.fst).Nodup :=
    (hperm.map Prod.fst).nodup_iff.mpr hfst
  unfold extract_waveforms_to_single_buffer
  rw [writeAll_perm executed _ hperm hnd, singleBufferTasks_eq_zip]
  cases kind <;>
    exact writeAll_zip_range _ _ _ (by rw [List.length_map])

/-- Any runner execution (a permutation of the canonical task order) fills
unit `u`'s buffer with exactly the waveforms of `u`'s spikes in spike-order. -/
theorem extract_buffers_canonical (kind : StorageKind) (rec : Recording)
    (nbefore nafter : Nat) (sparsity_mask : Option (Nat → Nat → Bool))
    (spikes : List Spike) (executed : List (Nat × Nat × List (List Int)))
    (hperm : executed.Perm (unitBufferTasks rec nbefore nafter sparsity_mask spikes))
    (u : Nat) :
    extract_waveforms_to_buffers kind rec nbefore nafter sparsity_mask spikes executed u =
      (spikes.filter (fun s => s.unit_index == u)).map
        (waveformOf rec nbefore nafter sparsity_mask) := by
  have hcanon :
      writeAll (allocateUnitBuffers rec nbefore nafter sparsity_mask spikes u)
        (((unitBufferTasks rec nbefore nafter sparsity_mask spikes).filter
          (fun t => t.1 == u)).map (fun t => t.2)) =
        (spikes.filter (fun s => s.unit_index == u)).map
          (waveformOf rec nbefore nafter sparsity_mask) := by
    rw [unitBufferTasks_filter]
    exact writeAll_zip_range _ _ _ (by rw [List.length_map]; rfl)
  have hfst :
      ((((unitBufferTasks rec nbefore nafter sparsity_mask spikes).filter
        (fun t => t.1 == u)).map (fun t => t.2)).map Prod.fst).Nodup := by
    rw [unitBufferTasks_filter, List.map_fst_zip _ _ (by simp [unitSpikeCount])]
    exact List.nodup_range _
  have hnd :
      (((executed.filter (fun t => t.1 == u)).map (fun t => t.2)).map Prod.fst).Nodup :=
    (((hperm.filter _).map _).map Prod.fst).nodup_iff.mpr hfst
  cases kind <;>
    · show (executed.foldl applyUnitWrite
        (allocateUnitBuffers rec nbefore nafter sparsity_mask spikes)) u = _
      rw [foldl_applyUnitWrite, writeAll_perm _ _ ((hperm.filter _).map _) hnd, hcanon]

theorem waveformOf_length (rec : Recording) (nbefore nafter : Nat)
    (mask : Option (Nat → Nat → Bool)) (s : Spike) :
    (waveformOf rec nbefore nafter mask s).length = nbefore + nafter := by
  unfold waveformOf
  rw [List.length_map, List.length_range]

theorem waveformOf_get? (rec : Recording) (nbefore nafter : Nat)
    (mask : Option (Nat → Nat → Bool)) (s : Spike) (t : Nat)
    (ht : t < nbefore + nafter) :
    (waveformOf rec nbefore nafter mask s).get? t =
      some (if nbefore ≤ s.sample_index + t ∧
          s.sample_index + t < rec.seg_num_samples s.segment_index + nbefore then
        (activeChannels rec.num_channels mask s.unit_index).map
          (fun c => rec.trace s.segment_index (s.sample_index + t - nbefore) c)
      else
        (activeChannels rec.num_channels mask s.unit_index).map (fun _ => 0)) := by
  unfold waveformOf
  rw [List.get?_map, List.get?_range ht]
  simp only [Option.map_some']
  by_cases hc : nbefore ≤ s.sample_index + t ∧
      s.sample_index + t < rec.seg_num_samples s.segment_index + nbefore
  · rw [if_pos hc]
    have hint : 0 ≤ (s.sample_index : Int) - (nbefore : Int) + (t : Int) ∧
        (s.sample_index : Int) - (nbefore : Int) + (t : Int) <
          (rec.seg_num_samples s.segment_index : Int) := by
      omega
    rw [if_pos hint]
    have htn : ((s.sample_index : Int) - (nbefore : Int) + (t : Int)).toNat =
        s.sample_index + t - nbefore := by
      omega
    rw [htn]
  · rw [if_neg hc]
    have hint : ¬ (0 ≤ (s.sample_index : Int) - (nbefore : Int) + (t : Int) ∧
        (s.sample_index : Int) - (nbefore : Int) + (t : Int) <
          (rec.seg_num_samples s.segment_index : Int)) := by
      omega
    rw [if_neg hint]

/-- C1: for a sorted spike sequence, any parallel execution of the runner —
any interleaving (permutation) of the precomputed write tasks across chunked
workers — produces buffers bit-identical to the sequential (`n_jobs = 1`)
execution, in single-buffer mode and in per-unit-buffer mode alike. -/
theorem C1_parallel_equals_sequential (kind : StorageKind) (rec : Recording)
    (nbefore nafter : Nat) (sparsity_mask : Option (Nat → Nat → Bool))
    (spikes : List Spike) (executedS : List (Nat × List (List Int)))
    (executedU : List (Nat × Nat × List (List Int)))
    (hsorted : spikesSorted spikes)
    (hS : executedS.Perm (singleBufferTasks rec nbefore nafter sparsity_mask spikes))
    (hU : executedU.Perm (unitBufferTasks rec nbefore nafter sparsity_mask spikes)) :
    extract_waveforms_to_single_buffer kind rec nbefore nafter sparsity_mask spikes
        executedS =
      extract_waveforms_to_single_buffer kind rec nbefore nafter sparsity_mask spikes
        (singleBufferTasks rec nbefore nafter sparsity_mask spikes) ∧
    extract_waveforms_to_buffers kind rec nbefore nafter sparsity_mask spikes
        executedU =
      extract_waveforms_to_buffers kind rec nbefore nafter sparsity_mask spikes
        (unitBufferTasks rec nbefore nafter sparsity_mask spikes) := by
  constructor
  · rw [extract_single_canonical kind rec nbefore nafter sparsity_mask spikes _ hS,
      extract_single_canonical kind rec nbefore nafter sparsity_mask spikes _
        (List.Perm.refl _)]
  · funext u
    rw [extract_buffers_canonical kind rec nbefore nafter sparsity_mask spikes _ hU u,
      extract_buffers_canonical kind rec nbefore nafter sparsity_mask spikes _
        (List.Perm.refl _) u]

/-- C2: for a sorted spike sequence, the one-pass indexer assigns each
unit's spikes `within_unit_position` values forming a permutation of
`[0, spike_count[unit])`, with no two spikes of a unit sharing a position. -/
theorem C2_within_unit_position_permutation (spikes : List Spike)
    (hsorted : spikesSorted spikes) :
    ∀ u, (((spikesWithPosition spikes).filter
          (fun p => p.1.unit_index == u)).map Prod.snd).Perm
        (List.range (unitSpikeCount spikes u)) ∧
      (((spikesWithPosition spikes).filter
          (fun p => p.1.unit_index == u)).map Prod.snd).Nodup := by
  intro u
  have hval : ((spikesWithPosition spikes).filter
      (fun p => p.1.unit_index == u)).map Prod.snd =
      List.range (unitSpikeCount spikes u) := by
    rw [spikesWithPosition, withinUnitAux_filter u spikes (fun _ => 0),
      List.map_snd_zip _ _ (by simp [unitSpikeCount])]
    simp [List.range_eq_range']
  rw [hval]
  exact ⟨List.Perm.refl _, List.nodup_range _⟩

/-- C3: per-unit-buffer extraction and single-buffer extraction followed by
`split_waveforms_by_units` yield identical per-unit arrays for every unit. -/
theorem C3_buffer_layout_equivalence (kind : StorageKind) (rec : Recording)
    (nbefore nafter : Nat) (sparsity_mask : Option (Nat → Nat → Bool))
    (spikes : List Spike) :
    ∀ u, extract_waveforms_to_buffers kind rec nbefore nafter sparsity_mask spikes
        (unitBufferTasks rec nbefore nafter sparsity_mask spikes) u =
      split_waveforms_by_units spikes
        (extract_waveforms_to_single_buffer kind rec nbefore nafter sparsity_mask
          spikes (singleBufferTasks rec nbefore nafter sparsity_mask spikes)) u := by
  intro u
  rw [extract_buffers_canonical kind rec nbefore nafter sparsity_mask spikes _
      (List.Perm.refl _) u,
    extract_single_canonical kind rec nbefore nafter sparsity_mask spikes _
      (List.Perm.refl _),
    split_of_map]

/-- C5: for every unit, the row count of that unit's output buffer equals
the number of spikes of the input sequence referencing that unit. -/
theorem C5_buffer_row_count (kind : StorageKind) (rec : Recording)
    (nbefore nafter : Nat) (sparsity_mask : Option (Nat → Nat → Bool))
    (spikes : List Spike) :
    ∀ u, (extract_waveforms_to_buffers kind rec nbefore nafter sparsity_mask spikes
        (unitBufferTasks rec nbefore nafter sparsity_mask spikes) u).length =
      unitSpikeCount spikes u := by
  intro u
  rw [extract_buffers_canonical kind rec nbefore nafter sparsity_mask spikes _
      (List.Perm.refl _) u, List.length_map]
  rfl

/-- C6: re-running the extraction on identical inputs yields identical
output, independent of storage kind (memmap vs shared memory) and of the
worker interleaving, in both buffer layouts. -/
theorem C6_storage_and_schedule_independence (rec : Recording)
    (nbefore nafter : Nat) (sparsity_mask : Option (Nat → Nat → Bool))
    (spikes : List Spike) (kind1 kind2 : StorageKind)
    (executedS1 executedS2 : List (Nat × List (List Int)))
    (executedU1 executedU2 : List (Nat × Nat × List (List Int)))
    (hS1 : executedS1.Perm (singleBufferTasks rec nbefore nafter sparsity_mask spikes))
    (hS2 : executedS2.Perm (singleBufferTasks rec nbefore nafter sparsity_mask spikes))
    (hU1 : executedU1.Perm (unitBufferTasks rec nbefore nafter sparsity_mask spikes))
    (hU2 : executedU2.Perm (unitBufferTasks rec nbefore nafter sparsity_mask spikes)) :
    extract_waveforms_to_single_buffer kind1 rec nbefore nafter sparsity_mask spikes
        executedS1 =
      extract_waveforms_to_single_buffer kind2 rec nbefore nafter sparsity_mask spikes
        executedS2 ∧
    extract_waveforms_to_buffers kind1 rec nbefore nafter sparsity_mask spikes
        executedU1 =
      extract_waveforms_to_buffers kind2 rec nbefore nafter sparsity_mask spikes
        executedU2 := by
  constructor
  · rw [extract_single_canonical kind1 rec nbefore nafter sparsity_mask spikes _ hS1,
      extract_single_canonical kind2 rec nbefore nafter sparsity_mask spikes _ hS2]
  · funext u
    rw [extract_buffers_canonical kind1 rec nbefore nafter sparsity_mask spikes _ hU1 u,
      extract_buffers_canonical kind2 rec nbefore nafter sparsity_mask spikes _ hU2 u]

/-- C4: a spike whose window lies fully inside its segment is written
verbatim from the recording; for any spike, each in-bounds row equals the
raw samples and each out-of-bounds row is exactly zero-filled; and a spike
at `sample_index = 0` with `nbefore = 90`, `nafter = 120` yields 90 leading
zero rows followed by 120 real sample rows. -/
theorem C4_window_clipping (rec : Recording) (nbefore nafter : Nat)
    (sparsity_mask : Option (Nat → Nat → Bool)) (s : Spike) :
    (nbefore ≤ s.sample_index →
      s.sample_index + nafter ≤ rec.seg_num_samples s.segment_index →
      waveformOf rec nbefore nafter sparsity_mask s =
        (List.range (nbefore + nafter)).map (fun t =>
          (activeChannels rec.num_channels sparsity_mask s.unit_index).map
            (fun c => rec.trace s.segment_index (s.sample_index - nbefore + t) c))) ∧
    (∀ t, t < nbefore + nafter →
      ((s.sample_index + t < nbefore ∨
          rec.seg_num_samples s.segment_index + nbefore ≤ s.sample_index + t) →
        (waveformOf rec nbefore nafter sparsity_mask s).get? t =
          some ((activeChannels rec.num_channels sparsity_mask s.unit_index).map
            (fun _ => (0 : Int)))) ∧
      (nbefore ≤ s.sample_index + t →
        s.sample_index + t < rec.seg_num_samples s.segment_index + nbefore →
        (waveformOf rec nbefore nafter sparsity_mask s).get? t =
          some ((activeChannels rec.num_channels sparsity_mask s.unit_index).map
            (fun c => rec.trace s.segment_index (s.sample_index + t - nbefore) c)))) ∧
    (s.sample_index = 0 → nbefore = 90 → nafter = 120 →
      120 ≤ rec.seg_num_samples s.segment_index →
      (waveformOf rec nbefore nafter sparsity_mask s).take 90 =
        List.replicate 90
          ((activeChannels rec.num_channels sparsity_mask s.unit_index).map
            (fun _ => (0 : Int))) ∧
      (waveformOf rec nbefore nafter sparsity_mask s).drop 90 =
        (List.range 120).map (fun t =>
          (activeChannels rec.num_channels sparsity_mask s.unit_index).map
            (fun c => rec.trace s.segment_index t c))) := by
  refine ⟨?_, ?_, ?_⟩
  · intro hlo hhi
    apply List.ext
    intro j
    by_cases hj : j < nbefore + nafter
    · rw [waveformOf_get? rec nbefore nafter sparsity_mask s j hj,
        List.get?_map, List.get?_range hj]
      rw [if_pos (by omega : nbefore ≤ s.sample_index + j ∧
        s.sample_index + j < rec.seg_num_samples s.segment_index + nbefore)]
      have harg : s.sample_index + j - nbefore = s.sample_index - nbefore + j := by
        omega
      rw [harg]
      rfl
    · have h1 : (waveformOf rec nbefore nafter sparsity_mask s).get? j = none :=
        List.get?_eq_none.mpr (by rw [waveformOf_length]; omega)
      have h2 : ((List.range (nbefore + nafter)).map (fun t =>
          (activeChannels rec.num_channels sparsity_mask s.unit_index).map
            (fun c => rec.trace s.segment_index (s.sample_index - nbefore + t) c))).get?
            j = none :=
        List.get?_eq_none.mpr (by rw [List.length_map, List.length_range]; omega)
      rw [h1, h2]
  · intro t ht
    constructor
    · intro hout
      rw [waveformOf_get? rec nbefore nafter sparsity_mask s t ht, if_neg (by omega)]
    · intro hlo hhi
      rw [waveformOf_get? rec nbefore nafter sparsity_mask s t ht,
        if_pos (by omega : nbefore ≤ s.sample_index + t ∧
          s.sample_index + t < rec.seg_num_samples s.segment_index + nbefore)]
  · intro hsample hnb hna hseg
    subst hnb hna
    constructor
    · apply List.ext
      intro j
      by_cases hj : j < 90
      · rw [List.get?_take (by omega : j < 90),
          waveformOf_get? rec 90 120 sparsity_mask s j (by omega), if_neg (by omega),
          List.get?_eq_getElem?, List.getElem?_replicate, if_pos hj]
      · have h1 : ((waveformOf rec 90 120 sparsity_mask s).take 90).get? j = none :=
          List.get?_eq_none.mpr
            (by rw [List.length_take, waveformOf_length]; omega)
        have h2 : (List.replicate 90
            ((activeChannels rec.num_channels sparsity_mask s.unit_index).map
              (fun _ => (0 : Int)))).get? j = none :=
          List.get?_eq_none.mpr (by rw [List.length_replicate]; omega)
        rw [h1, h2]
    · apply List.ext
      intro j
      by_cases hj : j < 120
      · rw [List.get?_drop, waveformOf_get? rec 90 120 sparsity_mask s (90 + j)
          (by omega), if_pos (by omega), List.get?_map, List.get?_range hj, hsample]
        have harg : 0 + (90 + j) - 90 = j := by omega
        rw [harg]
        rfl
      · have h1 : ((waveformOf rec 90 120 sparsity_mask s).drop 90).get? j = none :=
          List.get?_eq_none.mpr
            (by rw [List.length_drop, waveformOf_length]; omega)
        have h2 : ((List.range 120).map (fun t =>
            (activeChannels rec.num_channels sparsity_mask s.unit_index).map
              (fun c => rec.trace s.segment_index t c))).get? j = none :=
          List.get?_eq_none.mpr
            (by rw [List.length_map, List.length_range]; omega)
        rw [h1, h2]

/-- A concrete two-channel recording with one five-sample segment. -/
def exampleRecording : Recording :=
  ⟨2, fun _ => 5, fun seg pos c => (pos : Int) + 10 * (c : Int) + 100 * (seg : Int)⟩

/-- Three sorted spikes over two units. -/
def exampleSpikes : List Spike := [⟨0, 1, 0⟩, ⟨0, 2, 1⟩, ⟨0, 3, 0⟩]

def exampleTasksS : List (Nat × List (List Int)) :=
  singleBufferTasks exampleRecording 1 1 none exampleSpikes

def exampleTasksU : List (Nat × Nat × List (List Int)) :=
  unitBufferTasks exampleRecording 1 1 none exampleSpikes

theorem C1_parallel_equals_sequential_witness :
    (spikesSorted exampleSpikes ∧
      exampleTasksS.reverse.Perm exampleTasksS ∧
      exampleTasksU.reverse.Perm exampleTasksU) ∧
    (extract_waveforms_to_single_buffer .memmap exampleRecording 1 1 none exampleSpikes
        exampleTasksS.reverse =
      extract_waveforms_to_single_buffer .memmap exampleRecording 1 1 none exampleSpikes
        exampleTasksS ∧
      extract_waveforms_to_buffers .memmap exampleRecording 1 1 none exampleSpikes
        exampleTasksU.reverse =
      extract_waveforms_to_buffers .memmap exampleRecording 1 1 none exampleSpikes
        exampleTasksU) :=
  ⟨⟨by decide, by decide, by decide⟩,
    C1_parallel_equals_sequential .memmap exampleRecording 1 1 none exampleSpikes
      exampleTasksS.reverse exampleTasksU.reverse (by decide) (by decide) (by decide)⟩

theorem C2_within_unit_position_permutation_witness :
    spikesSorted exampleSpikes ∧
    ∀ u, (((spikesWithPosition exampleSpikes).filter
          (fun p => p.1.unit_index == u)).map Prod.snd).Perm
        (List.range (unitSpikeCount exampleSpikes u)) ∧
      (((spikesWithPosition exampleSpikes).filter
          (fun p => p.1.unit_index == u)).map Prod.snd).Nodup :=
  ⟨by decide, C2_within_unit_position_permutation exampleSpikes (by decide)⟩

/-- A concrete one-channel recording with 200-sample segments, for the
boundary scenario. -/
def exampleBoundaryRecording : Recording := ⟨1, fun _ => 200, fun _ pos _ => (pos : Int)⟩

theorem C4_window_clipping_witness :
    (waveformOf exampleBoundaryRecording 90 120 none ⟨0, 0, 0⟩).take 90 =
      List.replicate 90
        ((activeChannels exampleBoundaryRecording.num_channels none 0).map
          (fun _ => (0 : Int))) ∧
    (waveformOf exampleBoundaryRecording 90 120 none ⟨0, 0, 0⟩).drop 90 =
      (List.range 120).map (fun t =>
        (activeChannels exampleBoundaryRecording.num_channels none 0).map
          (fun c => exampleBoundaryRecording.trace 0 t c)) :=
  (C4_window_clipping exampleBoundaryRecording 90 120 none ⟨0, 0, 0⟩).2.2
    rfl rfl rfl (by decide)

theorem C6_storage_and_schedule_independence_witness :
    (exampleTasksS.reverse.Perm exampleTasksS ∧
      exampleTasksU.reverse.Perm exampleTasksU) ∧
    (extract_waveforms_to_single_buffer .memmap exampleRecording 1 1 none exampleSpikes
        exampleTasksS.reverse =
      extract_waveforms_to_single_buffer .shared_memory exampleRecording 1 1 none
        exampleSpikes exampleTasksS ∧
      extract_waveforms_to_buffers .memmap exampleRecording 1 1 none exampleSpikes
        exampleTasksU.reverse =
      extract_waveforms_to_buffers .shared_memory exampleRecording 1 1 none
        exampleSpikes exampleTasksU) :=
  ⟨⟨by decide, by decide⟩,
    C6_storage_and_schedule_independence exampleRecording 1 1 none exampleSpikes
      .memmap .shared_memory exampleTasksS.reverse exampleTasksS
      exampleTasksU.reverse exampleTasksU
      (by decide) (by decide) (by decide) (by decide)⟩

end SpikeInterface
